import Mathlib

/-!
Verification development for the text-patching and test-prerequisite helpers
of `internal/testutils/utils.go`.

File contents are modelled as `List Char` (the files involved are ASCII, so
Go's byte strings and rune sequences coincide).  A file on disk is a `File`:
its content together with its permission bits.  Each operation acts on a
single path, modelled as `Option File` (`none` = the path does not exist),
and additionally returns the list of file-system events it performed
(`stat`, `read`, `write content perm`), so that claims about I/O ordering
and about the permission argument passed to the write call can be stated.

Go library semantics embedded here:
  * `ioutil.WriteFile(path, data, perm)` truncates an existing file without
    changing its permissions; `perm` is only applied when the file is
    created.  All operations below write to a path they have just read, so
    the on-disk mode is never altered by a write.
  * `bufio.Scanner` with the default `ScanLines` split: tokens are lines
    with the trailing `\n` removed (and a final `\r` dropped); an input
    ending in `\n` does not produce a final empty token; the empty input
    produces no token.  (The scanner's 64KiB token-size limit is beyond
    this embedding.)
  * `strings.Replace(s, old, new, -1)` replaces the leftmost
    non-overlapping occurrences of `old`, scanning left to right; for an
    empty `old` it inserts `new` before every character and at the end.
  * `regexp.Compile` / `Regexp.ReplaceAllString` are external library
    calls; they are represented by their outcome: either a compilation
    error message or the total substitution function the compiled pattern
    denotes on strings.
-/

set_option autoImplicit false

/-- `dropCR` from `bufio`: drops a terminal carriage return from a line. -/
def dropCR (l : List Char) : List Char :=
  if l.getLast? = some '\r' then l.dropLast else l

/-- Worker for `scanLines`: `acc` holds the current line, reversed. -/
def scanLinesAux (acc : List Char) : List Char → List (List Char)
  | [] => [dropCR acc.reverse]
  | c :: rest =>
    if c = '\n' then
      if rest.isEmpty then [dropCR acc.reverse]
      else dropCR acc.reverse :: scanLinesAux [] rest
    else scanLinesAux (c :: acc) rest

/-- The token sequence produced by `bufio.Scanner` with `ScanLines`. -/
def scanLines (s : List Char) : List (List Char) :=
  if s.isEmpty then [] else scanLinesAux [] s

/-- `strings.TrimPrefix(s, pre)`: drop `pre` from the front of `s` when it
is present, otherwise return `s` unchanged. -/
def trimPrefix (s pre : List Char) : List Char :=
  if pre.isPrefixOf s then s.drop pre.length else s

/-- `strings.Index(s, sub)`: index of the leftmost occurrence of `sub` in
`s`, or `none` (Go returns `-1`). -/
def strIndex (s sub : List Char) : Option Nat :=
  if sub.isPrefixOf s then some 0
  else
    match s with
    | [] => none
    | _ :: cs => (strIndex cs sub).map (· + 1)

/-- `strings.Contains(s, sub)`, i.e. `strings.Index(s, sub) >= 0`. -/
def containsSub (s sub : List Char) : Bool :=
  (strIndex s sub).isSome

/-- Worker for `stringsReplace` on a non-empty `old`: scan left to right,
replacing each leftmost occurrence and continuing after it.  Every step
consumes at least one character of `s`, so fuel `s.length` (supplied by the
wrapper) is never exhausted; the `0` case is unreachable. -/
def replaceAux (old new : List Char) : Nat → List Char → List Char
  | _, [] => []
  | 0, s => s
  | fuel + 1, c :: cs =>
    if old.isPrefixOf (c :: cs) then
      new ++ replaceAux old new fuel (cs.drop (old.length - 1))
    else c :: replaceAux old new fuel cs

/-- `strings.Replace(s, old, new, -1)`: replace all leftmost
non-overlapping occurrences; an empty `old` inserts `new` at every
position. -/
def stringsReplace (s old new : List Char) : List Char :=
  match old with
  | [] => new ++ s.flatMap (fun c => c :: new)
  | _ :: _ => replaceAux old new s.length s

/-- A file on disk: its content and its permission bits. -/
structure File where
  content : List Char
  mode : Nat
deriving DecidableEq

/-- The state of the single path an operation addresses. -/
abbrev FS := Option File

/-- A file-system event performed by an operation.  A `write` records the
content written and the permission argument passed to
`ioutil.WriteFile`. -/
inductive Event
  | stat
  | read
  | write (content : List Char) (perm : Nat)
deriving DecidableEq

/-- Whether an event is a write. -/
def Event.isWrite : Event → Bool
  | .write _ _ => true
  | _ => false

/-- The errors the operations return. -/
inductive Err
  | statNoFile
  | readNoFile
  | contentNotFound
  | codeNotFound (target : List Char)
  | patternSyntax (msg : List Char)
deriving DecidableEq

/-- Result of one operation: the returned `error`, the state of the path
afterwards, and the events performed. -/
structure Outcome where
  res : Except Err Unit
  fs : FS
  trace : List Event

/-- Whether an `error` value is nil. -/
def okB : Except Err Unit → Bool
  | .ok _ => true
  | .error _ => false

/-- `ioutil.WriteFile`: an existing file is truncated and rewritten,
keeping its permissions; a missing file is created with `perm`. -/
def writeFile (fs : FS) (c : List Char) (perm : Nat) : FS :=
  match fs with
  | some f => some { content := c, mode := f.mode }
  | none => some { content := c, mode := perm }

/-- `ReplaceInFile(path, old, new)`: stat, read, require `old` to occur,
replace all occurrences, write back with the stat'd mode as the permission
argument. -/
def replaceInFile (fs : FS) (old new : List Char) : Outcome :=
  match fs with
  | none => ⟨.error .statNoFile, none, [.stat]⟩
  | some f =>
    if containsSub f.content old then
      let s := stringsReplace f.content old new
      ⟨.ok (), writeFile (some f) s f.mode, [.stat, .read, .write s f.mode]⟩
    else
      ⟨.error .contentNotFound, some f, [.stat, .read]⟩

/-- `ReplaceRegexInFile(path, match, replace)`.  `regexp.Compile` and the
compiled matcher's `ReplaceAllString` are external library calls,
represented by their outcome: `compiled` is either the compilation error
message or the substitution function
`fun s => matcher.ReplaceAllString(s, replace)`.  A failing compile
returns before any file I/O; otherwise the file is stat'd and read, and
the no-op-detection heuristic compares the substituted content with the
original. -/
def replaceRegexInFile (compiled : Except (List Char) (List Char → List Char))
    (fs : FS) : Outcome :=
  match compiled with
  | .error msg => ⟨.error (.patternSyntax msg), fs, []⟩
  | .ok substitute =>
    match fs with
    | none => ⟨.error .statNoFile, none, [.stat]⟩
    | some f =>
      let s := substitute f.content
      if s = f.content then ⟨.error .contentNotFound, some f, [.stat, .read]⟩
      else ⟨.ok (), writeFile (some f) s f.mode, [.stat, .read, .write s f.mode]⟩

/-- The scanner loop of `UncommentCode`: split the target into lines,
strip `pre` from the front of each, and rejoin with `\n` (no separator is
written after the last line). -/
def uncommentBlock (target pre : List Char) : List Char :=
  List.intercalate ['\n'] ((scanLines target).map (fun line => trimPrefix line pre))

/-- `UncommentCode(filename, target, prefix)`: read, locate the leftmost
occurrence of `target`, and splice the uncommented block over it, writing
with permission argument `0o644`.  When the scanner yields no token (an
empty `target`), the code returns nil before any write. -/
def uncommentCode (fs : FS) (target pre : List Char) : Outcome :=
  match fs with
  | none => ⟨.error .readNoFile, none, [.read]⟩
  | some f =>
    match strIndex f.content target with
    | none => ⟨.error (.codeNotFound target), some f, [.read]⟩
    | some idx =>
      if (scanLines target).isEmpty then ⟨.ok (), some f, [.read]⟩
      else
        let out := f.content.take idx ++ uncommentBlock target pre
          ++ f.content.drop (idx + target.length)
        ⟨.ok (), writeFile (some f) out 0o644, [.read, .write out 0o644]⟩

/-- The content `UncommentCode` leaves in the file when it succeeds. -/
def uncommentResult (content target pre : List Char) : List Char :=
  match strIndex content target with
  | none => content
  | some idx =>
    content.take idx ++ uncommentBlock target pre ++ content.drop (idx + target.length)

/-- The line `AllowProjectBeMultiGroup` prepends. -/
def multiGroup : List Char := "multigroup: true\n".toList

/-- `AllowProjectBeMultiGroup`: read the PROJECT file and write it back
with `multigroup: true\n` prepended, permission argument `0o644`. -/
def allowProjectBeMultiGroup (fs : FS) : Outcome :=
  match fs with
  | none => ⟨.error .readNoFile, none, [.read]⟩
  | some f =>
    let out := multiGroup ++ f.content
    ⟨.ok (), writeFile (some f) out 0o644, [.read, .write out 0o644]⟩

/-- The writes of an outcome: content and permission argument of each
`write` event, in order. -/
def writes (o : Outcome) : List (List Char × Nat) :=
  o.trace.filterMap (fun e =>
    match e with
    | .write c p => some (c, p)
    | _ => none)

/-- Atomicity: on error the path is untouched; on success it holds the
transformed content `t` with the mode unchanged. -/
abbrev atomicSpec (o : Outcome) (f : File) (t : List Char) : Prop :=
  (okB o.res = false → o.fs = some f) ∧
  (okB o.res = true → o.fs = some ⟨t, f.mode⟩)

/-- The flag state of `TestContext` relevant to prerequisite management. -/
structure TestContext where
  isPrometheusManagedBySuite : Bool
  isOLMManagedBySuite : Bool
deriving DecidableEq

/-- `NewTestContext` sets both managed-by-suite flags to `true`. -/
def newTestContext : TestContext :=
  { isPrometheusManagedBySuite := true, isOLMManagedBySuite := true }

/-- The two prerequisites managed by the suite. -/
inductive Prereq
  | prometheus
  | olm
deriving DecidableEq

/-- `InstallPrerequisites`, given the `kubectl api-resources` output: clear
each flag whose resource kind is already present, then install the
prerequisites whose flag is still set.  Go declares this method with a
VALUE receiver, so the returned context is a local copy: the caller's
`TestContext` is not updated. -/
def installPrerequisites (tc : TestContext) (apiResources : List Char) :
    TestContext × List Prereq :=
  let tc1 := if containsSub apiResources "servicemonitors".toList then
    { tc with isPrometheusManagedBySuite := false } else tc
  let tc2 := if containsSub apiResources "clusterserviceversions".toList then
    { tc1 with isOLMManagedBySuite := false } else tc1
  let acts := (if tc2.isPrometheusManagedBySuite then [Prereq.prometheus] else [])
    ++ (if tc2.isOLMManagedBySuite then [Prereq.olm] else [])
  (tc2, acts)

/-- `UninstallPrerequisites`: uninstall each prerequisite whose flag is set
on the receiver. -/
def uninstallPrerequisites (tc : TestContext) : List Prereq :=
  (if tc.isPrometheusManagedBySuite then [Prereq.prometheus] else [])
    ++ (if tc.isOLMManagedBySuite then [Prereq.olm] else [])

/-- One test run as a Go caller performs it: build the context, call
`tc.InstallPrerequisites()` (whose value receiver makes the flag updates
happen on a discarded copy), then call `tc.UninstallPrerequisites()` on
the unchanged `tc`.  Returns (installed, uninstalled). -/
def suiteRun (apiResources : List Char) : List Prereq × List Prereq :=
  let tc := newTestContext
  let installed := (installPrerequisites tc apiResources).2
  let uninstalled := uninstallPrerequisites tc
  (installed, uninstalled)

/-- C1 (counterexample): on the file `"x\n// line1\n// line2\ny\n"` with
target `"// line1\n// line2\n"` and prefix `"// "`, `UncommentCode`
produces `"x\nline1\nline2y\n"`, not the `"x\nline1\nline2\ny\n"` the
claim states: the scanner yields no token for the target's trailing
newline, and the loop writes no separator after the last line, so the
newline that ended the matched block is lost. -/
theorem c1_counterexample :
    (uncommentCode (some ⟨"x\n// line1\n// line2\ny\n".toList, 0o644⟩)
        "// line1\n// line2\n".toList "// ".toList).fs
      = some ⟨"x\nline1\nline2y\n".toList, 0o644⟩
    ∧ "x\nline1\nline2y\n".toList ≠ "x\nline1\nline2\ny\n".toList :=
  ⟨rfl, by decide⟩

/-- C1 (amended): on the file `"x\n// line1\n// line2\ny\n"` with target
`"// line1\n// line2\n"` and prefix `"// "`, `UncommentCode` succeeds and
the file's content afterwards is exactly `"x\nline1\nline2y\n"`: the
prefix is stripped from each line of the block, the lines are rejoined
with single newlines, and the newline that terminated the target block is
not re-emitted, so the uncommented block runs directly into the following
`"y\n"`; the content before the block is untouched. -/
theorem c1_amended :
    uncommentCode (some ⟨"x\n// line1\n// line2\ny\n".toList, 0o644⟩)
        "// line1\n// line2\n".toList "// ".toList
      = ⟨.ok (), some ⟨"x\nline1\nline2y\n".toList, 0o644⟩,
          [.read, .write "x\nline1\nline2y\n".toList 0o644]⟩ :=
  rfl

/-- C8: when the pattern does not compile, `ReplaceRegexInFile` returns
the compilation error itself, regardless of the state of the path, and
performs no file I/O at all: the path is untouched and the event trace is
empty. -/
theorem c8_invalid_pattern_no_io (msg : List Char) (fs : FS) :
    replaceRegexInFile (.error msg) fs = ⟨.error (.patternSyntax msg), fs, []⟩ :=
  rfl

/-- C9: on every existing file, `AllowProjectBeMultiGroup` succeeds and
the resulting content is `"multigroup: true\n"` followed by the original
content unchanged (with the on-disk mode preserved); on a missing file it
fails with the read I/O error.  The only error it can return is the I/O
error: there is no target-not-found failure. -/
theorem c9_prepend (f : File) :
    allowProjectBeMultiGroup (some f)
      = ⟨.ok (), some ⟨multiGroup ++ f.content, f.mode⟩,
          [.read, .write (multiGroup ++ f.content) 0o644]⟩
    ∧ allowProjectBeMultiGroup none = ⟨.error .readNoFile, none, [.read]⟩ :=
  ⟨rfl, rfl⟩

theorem scanLinesAux_ne_nil (s : List Char) : ∀ acc, scanLinesAux acc s ≠ [] := by
  induction s with
  | nil => intro acc; simp [scanLinesAux]
  | cons c rest ih =>
    intro acc
    simp only [scanLinesAux]
    split
    · split
      · simp
      · simp
    · exact ih (c :: acc)

theorem scanLines_eq_nil_iff (s : List Char) : scanLines s = [] ↔ s = [] := by
  unfold scanLines
  cases s with
  | nil => simp
  | cons c cs => simp [scanLinesAux_ne_nil]

theorem strIndex_nil_target (s : List Char) : strIndex s [] = some 0 := by
  unfold strIndex
  simp [List.isPrefixOf]

theorem strIndex_pos {s sub : List Char} (hp : sub.isPrefixOf s = true) :
    strIndex s sub = some 0 := by
  unfold strIndex
  rw [if_pos hp]

theorem strIndex_neg_nil {sub : List Char}
    (hp : ¬ sub.isPrefixOf ([] : List Char) = true) :
    strIndex [] sub = none := by
  unfold strIndex
  rw [if_neg hp]

theorem strIndex_neg_cons {c : Char} {cs sub : List Char}
    (hp : ¬ sub.isPrefixOf (c :: cs) = true) :
    strIndex (c :: cs) sub = (strIndex cs sub).map (· + 1) := by
  conv_lhs => unfold strIndex
  rw [if_neg hp]

theorem strIndex_here (sub s : List Char) :
    ∀ (i : Nat), strIndex s sub = some i → sub.isPrefixOf (s.drop i) = true := by
  induction s with
  | nil =>
    intro i h
    by_cases hp : sub.isPrefixOf ([] : List Char) = true
    · rw [strIndex_pos hp] at h
      injection h with h
      subst h
      simpa using hp
    · rw [strIndex_neg_nil hp] at h
      exact absurd h (by simp)
  | cons c cs ih =>
    intro i h
    by_cases hp : sub.isPrefixOf (c :: cs) = true
    · rw [strIndex_pos hp] at h
      injection h with h
      subst h
      simpa using hp
    · rw [strIndex_neg_cons hp] at h
      rw [Option.map_eq_some'] at h
      obtain ⟨i', hi', rfl⟩ := h
      simpa using ih i' hi'

theorem strIndex_leftmost (sub s : List Char) :
    ∀ (i : Nat), strIndex s sub = some i →
      ∀ j, j < i → sub.isPrefixOf (s.drop j) = false := by
  induction s with
  | nil =>
    intro i h j hj
    by_cases hp : sub.isPrefixOf ([] : List Char) = true
    · rw [strIndex_pos hp] at h
      injection h with h
      omega
    · rw [strIndex_neg_nil hp] at h
      exact absurd h (by simp)
  | cons c cs ih =>
    intro i h j hj
    by_cases hp : sub.isPrefixOf (c :: cs) = true
    · rw [strIndex_pos hp] at h
      injection h with h
      omega
    · rw [strIndex_neg_cons hp] at h
      rw [Option.map_eq_some'] at h
      obtain ⟨i', hi', rfl⟩ := h
      cases j with
      | zero =>
        simp only [List.drop_zero]
        cases hb : sub.isPrefixOf (c :: cs)
        · rfl
        · exact absurd hb hp
      | succ j' => simpa using ih i' hi' j' (by omega)

/-- C2 (counterexample): on the file `"aab"` with `old = "ab"` and
`new = "b"`, `ReplaceInFile` succeeds and leaves `"ab"`, yet `new` does
not contain `old` and `old` still occurs in the result: the replacement
creates a fresh occurrence spanning the boundary with the preceding text,
so the claim's parenthetical "zero occurrences of old remain" is false. -/
theorem c2_counterexample :
    (replaceInFile (some ⟨"aab".toList, 0o644⟩) "ab".toList "b".toList).res = .ok ()
    ∧ (replaceInFile (some ⟨"aab".toList, 0o644⟩) "ab".toList "b".toList).fs
        = some ⟨"ab".toList, 0o644⟩
    ∧ containsSub "b".toList "ab".toList = false
    ∧ containsSub "ab".toList "ab".toList = true :=
  ⟨rfl, rfl, rfl, rfl⟩

/-- C2 (amended): for every file `F` and strings `old`, `new`: if `old`
occurs in `F`'s content, `ReplaceInFile` succeeds and the resulting
content is `F`'s content with every leftmost non-overlapping occurrence of
`old` replaced by `new` (as `strings.Replace` with count `-1` computes
it), written with the stat'd mode; if `old` does not occur,
`ReplaceInFile` returns the target-not-found error and the file is
byte-for-byte unchanged.  (The original claim's parenthetical — that no
occurrence of `old` remains whenever `new` does not contain `old` — is
dropped: a replacement can create a new occurrence spanning the boundary
with the surrounding text.) -/
theorem c2_amended (f : File) (old new : List Char) :
    (containsSub f.content old = true →
      replaceInFile (some f) old new
        = ⟨.ok (), some ⟨stringsReplace f.content old new, f.mode⟩,
            [.stat, .read, .write (stringsReplace f.content old new) f.mode]⟩)
    ∧ (containsSub f.content old = false →
      replaceInFile (some f) old new
        = ⟨.error .contentNotFound, some f, [.stat, .read]⟩) := by
  constructor <;> intro h <;> simp [replaceInFile, writeFile, h]

theorem c2_amended_witness :
    replaceInFile (some ⟨"aa".toList, 0o600⟩) "a".toList "b".toList
      = ⟨.ok (), some ⟨"bb".toList, 0o600⟩, [.stat, .read, .write "bb".toList 0o600]⟩
    ∧ replaceInFile (some ⟨"aa".toList, 0o600⟩) "c".toList "b".toList
      = ⟨.error .contentNotFound, some ⟨"aa".toList, 0o600⟩, [.stat, .read]⟩ :=
  ⟨(c2_amended ⟨"aa".toList, 0o600⟩ "a".toList "b".toList).1 (by decide),
   (c2_amended ⟨"aa".toList, 0o600⟩ "c".toList "b".toList).2 (by decide)⟩

/-- C3: for every substitution function denoted by a compiled pattern and
replacement template, and every existing file: if the substitution leaves
the content byte-identical — whether because nothing matched or because
every match was replaced by identical text — `ReplaceRegexInFile` returns
the target-not-found error and the file is untouched; if the substituted
content differs, the operation succeeds and the file holds the
substituted content (written with the stat'd mode). -/
theorem c3_regex_noop_detection (substitute : List Char → List Char) (f : File) :
    (substitute f.content = f.content →
      replaceRegexInFile (.ok substitute) (some f)
        = ⟨.error .contentNotFound, some f, [.stat, .read]⟩)
    ∧ (substitute f.content ≠ f.content →
      replaceRegexInFile (.ok substitute) (some f)
        = ⟨.ok (), some ⟨substitute f.content, f.mode⟩,
            [.stat, .read, .write (substitute f.content) f.mode]⟩) := by
  constructor <;> intro h <;> simp [replaceRegexInFile, writeFile, h]

theorem c3_witness :
    replaceRegexInFile (.ok (fun s => s)) (some ⟨"a".toList, 0o600⟩)
      = ⟨.error .contentNotFound, some ⟨"a".toList, 0o600⟩, [.stat, .read]⟩
    ∧ replaceRegexInFile (.ok (fun _ => "Z".toList)) (some ⟨"a".toList, 0o600⟩)
      = ⟨.ok (), some ⟨"Z".toList, 0o600⟩,
          [.stat, .read, .write "Z".toList 0o600]⟩ :=
  ⟨(c3_regex_noop_detection (fun s => s) ⟨"a".toList, 0o600⟩).1 rfl,
   (c3_regex_noop_detection (fun _ => "Z".toList) ⟨"a".toList, 0o600⟩).2 (by decide)⟩

/-- C7: for every file, non-empty target block and prefix, if the target
does not occur verbatim in the file's content, `UncommentCode` returns
the descriptive unable-to-find-the-code error (carrying the target) and
performs no write: the file is unchanged. -/
theorem c7_uncomment_not_found (f : File) (target pre : List Char)
    (_hne : target ≠ []) (habs : containsSub f.content target = false) :
    uncommentCode (some f) target pre
      = ⟨.error (.codeNotFound target), some f, [.read]⟩ := by
  have hidx : strIndex f.content target = none := by
    unfold containsSub at habs
    cases h : strIndex f.content target with
    | none => rfl
    | some i => rw [h] at habs; simp at habs
  simp [uncommentCode, hidx]

theorem c7_witness :
    uncommentCode (some ⟨"abc".toList, 0o644⟩) "xyz".toList "// ".toList
      = ⟨.error (.codeNotFound "xyz".toList), some ⟨"abc".toList, 0o644⟩, [.read]⟩ :=
  c7_uncomment_not_found ⟨"abc".toList, 0o644⟩ "xyz".toList "// ".toList
    (by decide) (by decide)

theorem replaceInFile_cases (f : File) (old new : List Char) :
    replaceInFile (some f) old new
      = if containsSub f.content old = true
        then ⟨.ok (), some ⟨stringsReplace f.content old new, f.mode⟩,
              [.stat, .read, .write (stringsReplace f.content old new) f.mode]⟩
        else ⟨.error .contentNotFound, some f, [.stat, .read]⟩ := by
  by_cases hc : containsSub f.content old = true
  · rw [if_pos hc]
    simp [replaceInFile, hc, writeFile]
  · rw [if_neg hc]
    simp [replaceInFile, hc]

theorem replaceRegexInFile_cases (substitute : List Char → List Char) (f : File) :
    replaceRegexInFile (.ok substitute) (some f)
      = if substitute f.content = f.content
        then ⟨.error .contentNotFound, some f, [.stat, .read]⟩
        else ⟨.ok (), some ⟨substitute f.content, f.mode⟩,
              [.stat, .read, .write (substitute f.content) f.mode]⟩ := by
  by_cases hs : substitute f.content = f.content
  · rw [if_pos hs]
    simp [replaceRegexInFile, hs]
  · rw [if_neg hs]
    simp [replaceRegexInFile, hs, writeFile]

theorem uncommentCode_notFound (f : File) (target pre : List Char)
    (h : strIndex f.content target = none) :
    uncommentCode (some f) target pre
      = ⟨.error (.codeNotFound target), some f, [.read]⟩ := by
  simp [uncommentCode, h]

theorem uncommentCode_found (f : File) (target pre : List Char) (i : Nat)
    (hidx : strIndex f.content target = some i) :
    uncommentCode (some f) target pre
      = if target = [] then ⟨.ok (), some f, [.read]⟩
        else
          ⟨.ok (), some ⟨f.content.take i ++ uncommentBlock target pre
              ++ f.content.drop (i + target.length), f.mode⟩,
            [.read, .write (f.content.take i ++ uncommentBlock target pre
              ++ f.content.drop (i + target.length)) 0o644]⟩ := by
  by_cases ht : target = []
  · subst ht
    rw [if_pos rfl]
    simp [uncommentCode, hidx, scanLines]
  · rw [if_neg ht]
    have hsc : (scanLines target).isEmpty = false := by
      cases hq : scanLines target with
      | nil => exact absurd ((scanLines_eq_nil_iff target).mp hq) ht
      | cons a as => rfl
    simp [uncommentCode, hidx, hsc, writeFile]

/-- C10: when the target block occurs in the file (at leftmost index `i`,
with at least one later occurrence left in the remainder), `UncommentCode`
succeeds and the resulting content is the prefix before `i`, then the
uncommented block, then the suffix after the first occurrence — verbatim;
every later occurrence lives in that untouched suffix.  The last conjunct
certifies that `i` is genuinely the leftmost match. -/
theorem c10_first_occurrence_only (f : File) (target pre : List Char) (i : Nat)
    (hidx : strIndex f.content target = some i)
    (hlater : containsSub (f.content.drop (i + target.length)) target = true) :
    (uncommentCode (some f) target pre).res = .ok ()
    ∧ (uncommentCode (some f) target pre).fs
        = some ⟨f.content.take i ++ uncommentBlock target pre
            ++ f.content.drop (i + target.length), f.mode⟩
    ∧ target.isPrefixOf (f.content.drop i) = true
    ∧ (∀ j, j < i → target.isPrefixOf (f.content.drop j) = false) := by
  refine ⟨?_, ?_, strIndex_here target f.content i hidx,
    strIndex_leftmost target f.content i hidx⟩
  · rw [uncommentCode_found f target pre i hidx]
    split <;> rfl
  · rw [uncommentCode_found f target pre i hidx]
    split
    next ht =>
      subst ht
      have hi : i = 0 := by
        rw [strIndex_nil_target] at hidx
        injection hidx with h
        omega
      subst hi
      simp [uncommentBlock, scanLines, List.intercalate]
    next ht => rfl

theorem c10_witness :
    (uncommentCode (some ⟨"##z\n##z\n".toList, 0o600⟩) "##z".toList "#".toList).fs
      = some ⟨"#z\n##z\n".toList, 0o600⟩ := by
  have h := c10_first_occurrence_only ⟨"##z\n##z\n".toList, 0o600⟩
    "##z".toList "#".toList 0 (by decide) (by decide)
  exact h.2.1

/-- C4 (counterexample): `UncommentCode` called with an empty target block
on the file `"x"` returns success (Go's `scanner.Scan()` yields no token,
and the function returns nil before ever calling `WriteFile`), yet its
event trace contains no write at all: a call can return success without
performing the full rewrite the claim requires of every successful
call. -/
theorem c4_counterexample :
    (uncommentCode (some ⟨"x".toList, 0o600⟩) [] "// ".toList).res = .ok ()
    ∧ ((uncommentCode (some ⟨"x".toList, 0o600⟩) [] "// ".toList).trace.all
        (fun e => !e.isWrite)) = true
    ∧ (uncommentCode (some ⟨"x".toList, 0o600⟩) [] "// ".toList).fs
        = some ⟨"x".toList, 0o600⟩ :=
  ⟨rfl, rfl, rfl⟩

/-- C4 (amended): for each of the four mutating operations, on any
existing file: if the operation returns an error the file is completely
untouched, and if it succeeds the file's content is the operation's
transformation fully applied, with the on-disk mode unchanged (a write to
an existing file never alters its permission bits).  Every success
performs the full rewrite as a single write of the final content — except
that `UncommentCode` with an empty target block returns success without
writing, leaving the file untouched (its content then already equals the
transformation's result, which is the identity). -/
theorem c4_amended (f : File) (old new target pre msg : List Char)
    (substitute : List Char → List Char) :
    atomicSpec (replaceInFile (some f) old new) f (stringsReplace f.content old new)
    ∧ atomicSpec (replaceRegexInFile (.ok substitute) (some f)) f (substitute f.content)
    ∧ atomicSpec (replaceRegexInFile (.error msg) (some f)) f f.content
    ∧ atomicSpec (uncommentCode (some f) target pre) f (uncommentResult f.content target pre)
    ∧ atomicSpec (allowProjectBeMultiGroup (some f)) f (multiGroup ++ f.content)
    ∧ (okB (replaceInFile (some f) old new).res = true →
        (replaceInFile (some f) old new).trace
          = [.stat, .read, .write (stringsReplace f.content old new) f.mode])
    ∧ (okB (replaceRegexInFile (.ok substitute) (some f)).res = true →
        (replaceRegexInFile (.ok substitute) (some f)).trace
          = [.stat, .read, .write (substitute f.content) f.mode])
    ∧ (target ≠ [] → okB (uncommentCode (some f) target pre).res = true →
        (uncommentCode (some f) target pre).trace
          = [.read, .write (uncommentResult f.content target pre) 0o644])
    ∧ (allowProjectBeMultiGroup (some f)).trace
        = [.read, .write (multiGroup ++ f.content) 0o644] := by
  refine ⟨⟨?_, ?_⟩, ⟨?_, ?_⟩, ⟨?_, ?_⟩, ⟨?_, ?_⟩, ⟨?_, ?_⟩, ?_, ?_, ?_, ?_⟩
  · intro hok
    by_cases hc : containsSub f.content old = true
    · simp [replaceInFile_cases, hc, okB] at hok
    · simp [replaceInFile_cases, hc]
  · intro hok
    by_cases hc : containsSub f.content old = true
    · simp [replaceInFile_cases, hc]
    · simp [replaceInFile_cases, hc, okB] at hok
  · intro hok
    by_cases hs : substitute f.content = f.content
    · simp [replaceRegexInFile_cases, hs]
    · simp [replaceRegexInFile_cases, hs, okB] at hok
  · intro hok
    by_cases hs : substitute f.content = f.content
    · simp [replaceRegexInFile_cases, hs, okB] at hok
    · simp [replaceRegexInFile_cases, hs]
  · intro _
    rfl
  · intro hok
    simp [replaceRegexInFile, okB] at hok
  · intro hok
    cases h : strIndex f.content target with
    | none => simp [uncommentCode_notFound f target pre h]
    | some i =>
      rw [uncommentCode_found f target pre i h] at hok
      split at hok <;> simp [okB] at hok
  · intro hok
    cases h : strIndex f.content target with
    | none =>
      rw [uncommentCode_notFound f target pre h] at hok
      simp [okB] at hok
    | some i =>
      rw [uncommentCode_found f target pre i h]
      simp only [uncommentResult, h]
      split
      next ht =>
        subst ht
        have hi : i = 0 := by
          rw [strIndex_nil_target] at h
          injection h with h
          omega
        subst hi
        simp [uncommentBlock, scanLines, List.intercalate]
      next ht => rfl
  · intro hok
    simp [allowProjectBeMultiGroup, okB] at hok
  · intro _
    rfl
  · intro hok
    by_cases hc : containsSub f.content old = true
    · simp [replaceInFile_cases, hc]
    · simp [replaceInFile_cases, hc, okB] at hok
  · intro hok
    by_cases hs : substitute f.content = f.content
    · simp [replaceRegexInFile_cases, hs, okB] at hok
    · simp [replaceRegexInFile_cases, hs]
  · intro ht hok
    cases h : strIndex f.content target with
    | none =>
      rw [uncommentCode_notFound f target pre h] at hok
      simp [okB] at hok
    | some i =>
      rw [uncommentCode_found f target pre i h]
      rw [if_neg ht]
      simp only [uncommentResult, h]
  · rfl

theorem c4_amended_witness :
    (replaceInFile (some ⟨"ab".toList, 0o600⟩) "a".toList "c".toList).trace
      = [.stat, .read, .write "cb".toList 0o600]
    ∧ (uncommentCode (some ⟨"ab".toList, 0o600⟩) "ab".toList "#".toList).trace
      = [.read, .write "ab".toList 0o644]
    ∧ (replaceInFile (some ⟨"ab".toList, 0o600⟩) "z".toList "c".toList).fs
      = some ⟨"ab".toList, 0o600⟩ := by
  have h1 := c4_amended ⟨"ab".toList, 0o600⟩ "a".toList "c".toList "ab".toList
    "#".toList "m".toList (fun _ => "q".toList)
  have h2 := c4_amended ⟨"ab".toList, 0o600⟩ "z".toList "c".toList "ab".toList
    "#".toList "m".toList (fun _ => "q".toList)
  exact ⟨h1.2.2.2.2.2.1 (by decide),
    h1.2.2.2.2.2.2.2.1 (by decide) (by decide),
    h2.1.1 (by decide)⟩

/-- C5 (counterexample): on a PROJECT file whose mode is `0o600`,
`AllowProjectBeMultiGroup`'s write call passes the fixed permission
argument `0o644` — not the file's original mode `0o600` — so the prepend
operation does not "preserve the file's original mode" in the sense in
which the claim attributes mode arguments to the other operations (the
mode used for the write). -/
theorem c5_counterexample :
    writes (allowProjectBeMultiGroup (some ⟨"domain: example.com\n".toList, 0o600⟩))
      = [(multiGroup ++ "domain: example.com\n".toList, 0o644)]
    ∧ (0o644 : Nat) ≠ 0o600 :=
  ⟨rfl, by decide⟩

/-- C5 (amended): on success, `ReplaceInFile` and `ReplaceRegexInFile`
write the new content with the file's original mode bits (read via stat
before the write) as the permission argument; `UncommentCode` writes with
the fixed standard permission argument `0o644` regardless of the original
mode; and `AllowProjectBeMultiGroup` likewise writes with the fixed
`0o644`, not the original mode.  In every case the write targets a file
that already exists, so the permission argument is ignored by the OS and
each operation leaves the file's actual on-disk mode unchanged. -/
theorem c5_amended (f : File) (old new target pre : List Char)
    (substitute : List Char → List Char) :
    (okB (replaceInFile (some f) old new).res = true →
      writes (replaceInFile (some f) old new)
        = [(stringsReplace f.content old new, f.mode)])
    ∧ (okB (replaceRegexInFile (.ok substitute) (some f)).res = true →
      writes (replaceRegexInFile (.ok substitute) (some f))
        = [(substitute f.content, f.mode)])
    ∧ (target ≠ [] → okB (uncommentCode (some f) target pre).res = true →
      writes (uncommentCode (some f) target pre)
        = [(uncommentResult f.content target pre, 0o644)])
    ∧ writes (allowProjectBeMultiGroup (some f))
        = [(multiGroup ++ f.content, 0o644)]
    ∧ (replaceInFile (some f) old new).fs.map File.mode = some f.mode
    ∧ (replaceRegexInFile (.ok substitute) (some f)).fs.map File.mode = some f.mode
    ∧ (uncommentCode (some f) target pre).fs.map File.mode = some f.mode
    ∧ (allowProjectBeMultiGroup (some f)).fs.map File.mode = some f.mode := by
  refine ⟨?_, ?_, ?_, ?_, ?_, ?_, ?_, ?_⟩
  · intro hok
    by_cases hc : containsSub f.content old = true
    · simp [replaceInFile_cases, hc, writes]
    · simp [replaceInFile_cases, hc, okB] at hok
  · intro hok
    by_cases hs : substitute f.content = f.content
    · simp [replaceRegexInFile_cases, hs, okB] at hok
    · simp [replaceRegexInFile_cases, hs, writes]
  · intro ht hok
    cases h : strIndex f.content target with
    | none =>
      rw [uncommentCode_notFound f target pre h] at hok
      simp [okB] at hok
    | some i =>
      rw [uncommentCode_found f target pre i h]
      rw [if_neg ht]
      simp only [uncommentResult, h]
      simp [writes]
  · simp [allowProjectBeMultiGroup, writeFile, writes]
  · by_cases hc : containsSub f.content old = true
    · simp [replaceInFile_cases, hc]
    · simp [replaceInFile_cases, hc]
  · by_cases hs : substitute f.content = f.content
    · simp [replaceRegexInFile_cases, hs]
    · simp [replaceRegexInFile_cases, hs]
  · cases h : strIndex f.content target with
    | none => simp [uncommentCode_notFound f target pre h]
    | some i =>
      rw [uncommentCode_found f target pre i h]
      split <;> simp
  · simp [allowProjectBeMultiGroup, writeFile]

theorem c5_amended_witness :
    writes (replaceInFile (some ⟨"ab".toList, 0o600⟩) "a".toList "c".toList)
      = [("cb".toList, 0o600)]
    ∧ writes (uncommentCode (some ⟨"#k".toList, 0o600⟩) "#k".toList "#".toList)
      = [("k".toList, 0o644)]
    ∧ writes (allowProjectBeMultiGroup (some ⟨"d".toList, 0o600⟩))
      = [(multiGroup ++ "d".toList, 0o644)] := by
  have h1 := c5_amended ⟨"ab".toList, 0o600⟩ "a".toList "c".toList "#k".toList
    "#".toList (fun _ => "q".toList)
  have h2 := c5_amended ⟨"#k".toList, 0o600⟩ "a".toList "c".toList "#k".toList
    "#".toList (fun _ => "q".toList)
  have h3 := c5_amended ⟨"d".toList, 0o600⟩ "a".toList "c".toList "#k".toList
    "#".toList (fun _ => "q".toList)
  exact ⟨h1.1 (by decide), h2.2.2.1 (by decide) (by decide), h3.2.2.2.1⟩

/-- C6 (code bug): `InstallPrerequisites` is declared with a value
receiver, so the flag updates it makes after inspecting the
`api-resources` output happen on a local copy of the `TestContext` and are
lost.  On a cluster whose `api-resources` output already lists
`servicemonitors` (Prometheus present), the install phase correctly skips
installing Prometheus, but the caller's context still carries the flags
set by `NewTestContext`, so `UninstallPrerequisites` uninstalls Prometheus
— a prerequisite this run never installed, contradicting the claim's (and
the function's own documented) contract that only prerequisites installed
by this run are uninstalled. -/
theorem c6_value_receiver_bug :
    suiteRun "servicemonitors".toList
      = ([Prereq.olm], [Prereq.prometheus, Prereq.olm])
    ∧ Prereq.prometheus ∉ [Prereq.olm] :=
  ⟨rfl, by decide⟩
